import Mathlib

/-!
# A verification development for the gonymizer processor engine

This file gives a shallow embedding, in Lean 4, of the anonymization
processors found in `processors.go` of the gonymizer repository, and
proves (or refutes) the behavioural properties stated in the project's
specification.

Modelling conventions:
* Go strings are byte sequences; we model them as `List Nat` (`GoStr`),
  each element being one byte value.
* Go's shared random source is modelled as a stream `g : Nat → Nat`
  together with a cursor `i : Nat`; a call to `rand.Intn n` returns
  `g i % n` and advances the cursor to `i + 1`.  Quantifying over all
  `g` quantifies over all possible sequences of random draws.
* Go maps (`map[string]string` and friends) are modelled as association
  lists with insert-at-front semantics; `alookup` finds the most recent
  binding, which matches the observable behaviour of Go map overwrite.
* Go errors are modelled as `Option Unit` (`none` = nil error).
* A Go runtime panic (out-of-range slice) is modelled by a processor
  returning `none`.
-/

namespace Gonymizer

/-- A Go string, viewed as its byte sequence. -/
abbrev GoStr := List Nat

/-- Association-list lookup: the most recently inserted binding wins,
matching Go map semantics under overwriting inserts. -/
def alookup {κ α : Type} [DecidableEq κ] : List (κ × α) → κ → Option α
  | [], _ => none
  | (k, v) :: rest, key => if k = key then some v else alookup rest key

/-- Association-list insert (Go `m[k] = v`): the new binding shadows any
older binding for the same key. -/
def ainsert {κ α : Type} [DecidableEq κ] (m : List (κ × α)) (k : κ) (v : α) :
    List (κ × α) :=
  (k, v) :: m

@[simp]
theorem alookup_nil {κ α : Type} [DecidableEq κ] (k : κ) :
    alookup ([] : List (κ × α)) k = none := rfl

@[simp]
theorem alookup_ainsert_self {κ α : Type} [DecidableEq κ]
    (m : List (κ × α)) (k : κ) (v : α) :
    alookup (ainsert m k v) k = some v := by
  simp [alookup, ainsert]

@[simp]
theorem alookup_ainsert_ne {κ α : Type} [DecidableEq κ] {k k' : κ} (h : k ≠ k')
    (m : List (κ × α)) (v : α) :
    alookup (ainsert m k v) k' = alookup m k' := by
  simp [alookup, ainsert, h]

/-- A successful association-list lookup needs a non-empty list. -/
theorem alookup_ne_nil {κ α : Type} [DecidableEq κ] {l : List (κ × α)} {k : κ} {v : α}
    (h : alookup l k = some v) : l ≠ [] := by
  cases l with
  | nil => simp at h
  | cons p rest => simp

/-- `scrambleChar` is one iteration of the loop body of `scrambleString`
(`processors.go`): an ASCII lowercase byte becomes a random lowercase
byte (one draw of `rand.Intn(26)` into `lowercaseSet`), uppercase becomes
random uppercase, a digit becomes a random digit (`rand.Intn(10)` into
`numericSet`), and any other byte passes through without consuming a
random draw. -/
def scrambleChar (c : Nat) (g : Nat → Nat) (i : Nat) : Nat × Nat :=
  if 97 ≤ c ∧ c ≤ 122 then (97 + g i % 26, i + 1)
  else if 65 ≤ c ∧ c ≤ 90 then (65 + g i % 26, i + 1)
  else if 48 ≤ c ∧ c ≤ 57 then (48 + g i % 10, i + 1)
  else (c, i)

/-- Model of `scrambleString` (`processors.go`): iterate over the input
bytes, replacing each alphanumeric byte by a random byte of the same
class and passing every other byte through unchanged.  Returns the output
string together with the advanced random-stream cursor. -/
def scrambleString : GoStr → (Nat → Nat) → Nat → GoStr × Nat
  | [], _, i => ([], i)
  | c :: rest, g, i =>
    let p := scrambleChar c g i
    let q := scrambleString rest g p.2
    (p.1 :: q.1, q.2)

@[simp]
theorem scrambleString_nil (g : Nat → Nat) (i : Nat) :
    scrambleString [] g i = ([], i) := rfl

theorem scrambleString_cons (c : Nat) (rest : GoStr) (g : Nat → Nat) (i : Nat) :
    scrambleString (c :: rest) g i =
      ((scrambleChar c g i).1 :: (scrambleString rest g (scrambleChar c g i).2).1,
        (scrambleString rest g (scrambleChar c g i).2).2) := rfl

/-- The scrambled string has the same byte length as the input. -/
theorem scrambleString_length (s : GoStr) (g : Nat → Nat) (i : Nat) :
    (scrambleString s g i).1.length = s.length := by
  induction s generalizing i with
  | nil => rfl
  | cons c rest ih => simp [scrambleString_cons, ih]

/-- The scrambled string is empty exactly when the input is empty. -/
theorem scrambleString_eq_nil_iff (s : GoStr) (g : Nat → Nat) (i : Nat) :
    (scrambleString s g i).1 = [] ↔ s = [] := by
  constructor
  · intro h
    have := scrambleString_length s g i
    rw [h] at this
    exact List.length_eq_zero.mp this.symm
  · intro h; subst h; rfl

/-- Pointwise relation between an input byte and the corresponding output
byte of the character-class scrambler: class is preserved for the three
alphanumeric classes, and every other byte is copied verbatim. -/
def classMatch (a b : Nat) : Prop :=
  ((97 ≤ a ∧ a ≤ 122) → (97 ≤ b ∧ b ≤ 122)) ∧
  ((65 ≤ a ∧ a ≤ 90) → (65 ≤ b ∧ b ≤ 90)) ∧
  ((48 ≤ a ∧ a ≤ 57) → (48 ≤ b ∧ b ≤ 57)) ∧
  (¬ ((97 ≤ a ∧ a ≤ 122) ∨ (65 ≤ a ∧ a ≤ 90) ∨ (48 ≤ a ∧ a ≤ 57)) → b = a)

instance (a b : Nat) : Decidable (classMatch a b) := by
  unfold classMatch; infer_instance

theorem scrambleChar_classMatch (c : Nat) (g : Nat → Nat) (i : Nat) :
    classMatch c (scrambleChar c g i).1 := by
  unfold scrambleChar classMatch
  have h26 : g i % 26 < 26 := Nat.mod_lt _ (by norm_num)
  have h10 : g i % 10 < 10 := Nat.mod_lt _ (by norm_num)
  split
  · refine ⟨fun _ => ⟨by omega, by omega⟩, fun hu => by omega, fun hd => by omega, fun hn => by omega⟩
  · split
    · refine ⟨fun hl => by omega, fun _ => ⟨by omega, by omega⟩, fun hd => by omega, fun hn => by omega⟩
    · split
      · refine ⟨fun hl => by omega, fun hu => by omega, fun _ => ⟨by omega, by omega⟩, fun hn => by omega⟩
      · exact ⟨fun hl => by omega, fun hu => by omega, fun hd => by omega, fun _ => rfl⟩

/-- Positionwise specification of the scrambler. -/
theorem scrambleString_classMatch (s : GoStr) (g : Nat → Nat) (i k : Nat)
    (hk : k < s.length) :
    classMatch (s.getD k 0) ((scrambleString s g i).1.getD k 0) := by
  induction s generalizing i k with
  | nil => simp at hk
  | cons c rest ih =>
    rw [scrambleString_cons]
    cases k with
    | zero => simpa using scrambleChar_classMatch c g i
    | succ k =>
      simp only [List.getD_cons_succ]
      exact ih _ _ (by simpa using hk)

/-- Modelled from the spec: `ColumnMapper` is declared outside
`processors.go`; spec §3 ("Column Metadata") describes it as carrying the
owning schema/table/column names and, for consistency-linked columns, the
parent schema/table/column triple.  Only the three parent fields are read
by the processors in `processors.go`, so only those are modelled here. -/
structure ColumnMapper where
  ParentSchema : GoStr
  ParentTable : GoStr
  ParentColumn : GoStr
deriving DecidableEq

/-- The composite consistency scope key
`fmt.Sprintf("%s.%s.%s", cmap.ParentSchema, cmap.ParentTable, cmap.ParentColumn)`
built by `ProcessorAlphaNumericScrambler`; byte 46 is the ASCII dot. -/
def parentKeyOf (c : ColumnMapper) : GoStr :=
  c.ParentSchema ++ [46] ++ c.ParentTable ++ [46] ++ c.ParentColumn

/-- The two-level alphanumeric consistency store `AlphaNumericMap`
(`map[string]map[string]string`): scope key to (raw value to scramble). -/
abbrev AlphaMap := List (GoStr × List (GoStr × GoStr))

/-- Lookup of a raw value inside the submap of one scope key. -/
def lookup2 (m : AlphaMap) (pk inp : GoStr) : Option GoStr :=
  match alookup m pk with
  | none => none
  | some sub => alookup sub inp

/-- Model of `ProcessorAlphaNumericScrambler` (`processors.go`).  When all
three parent fields are non-empty it consults `AlphaNumericMap` under the
composite scope key: Go's `len(AlphaNumericMap[parentKey]) < 1` test
(missing or empty submap) installs a fresh submap, and Go's
`len(AlphaNumericMap[parentKey][input]) < 1` test (missing binding or
bound to `""`) decides between scramble-and-store and returning the
memoized value.  With any parent field empty it scrambles directly and
touches no map.  Returns (output, new map, new random cursor); the Go
error result is always nil. -/
def ProcessorAlphaNumericScrambler (cmap : ColumnMapper) (input : GoStr)
    (m : AlphaMap) (g : Nat → Nat) (i : Nat) : GoStr × AlphaMap × Nat :=
  if cmap.ParentSchema ≠ [] ∧ cmap.ParentTable ≠ [] ∧ cmap.ParentColumn ≠ [] then
    let parentKey := parentKeyOf cmap
    let m1 := if ((alookup m parentKey).getD []).length < 1
              then ainsert m parentKey [] else m
    let sub := (alookup m1 parentKey).getD []
    if ((alookup sub input).getD []).length < 1 then
      let p := scrambleString input g i
      (p.1, ainsert m1 parentKey (ainsert sub input p.1), p.2)
    else
      ((alookup sub input).getD [], m1, i)
  else
    let p := scrambleString input g i
    (p.1, m, p.2)

/-- The global IBAN consistency store `IBANMap` (`map[string]string`). -/
abbrev IBANMapT := List (GoStr × GoStr)

/-- Model of `ProcessorIBANScrambler` (`processors.go`): on a memoized
input return the stored value; otherwise build
`input[:2] + scrambleString(input[2:])` and store it under the original
input.  The Go code slices `input[:2]` without a length guard, which
panics at runtime when the input is shorter than two bytes; that panic is
modelled by returning `none`. -/
def ProcessorIBANScrambler (m : IBANMapT) (input : GoStr) (g : Nat → Nat)
    (i : Nat) : Option (GoStr × IBANMapT × Nat) :=
  match alookup m input with
  | some v => some (v, m, i)
  | none =>
    if 2 ≤ input.length then
      let p := scrambleString (input.drop 2) g i
      let out := input.take 2 ++ p.1
      some (out, ainsert m input out, p.2)
    else
      none

/-- A UUID, as in `github.com/google/uuid`: sixteen bytes. -/
abbrev UUIDb := List Nat

/-- Hex value of one ASCII byte (the `xvalues` table of
`github.com/google/uuid`): digits, lowercase a-f, uppercase A-F. -/
def xvalue (c : Nat) : Option Nat :=
  if 48 ≤ c ∧ c ≤ 57 then some (c - 48)
  else if 97 ≤ c ∧ c ≤ 102 then some (c - 87)
  else if 65 ≤ c ∧ c ≤ 70 then some (c - 55)
  else none

/-- `xtob` of `github.com/google/uuid`: two hex characters to one byte. -/
def xtob (a b : Nat) : Option Nat :=
  match xvalue a, xvalue b with
  | some x, some y => some (x * 16 + y)
  | _, _ => none

/-- Decode the canonical 36-byte form
`xxxxxxxx-xxxx-xxxx-xxxx-xxxxxxxxxxxx`: dashes at offsets 8, 13, 18, 23
and sixteen hex byte pairs at the offsets used by `uuid.Parse`. -/
def parse36 (s : GoStr) : Option UUIDb :=
  if s.getD 8 0 = 45 ∧ s.getD 13 0 = 45 ∧ s.getD 18 0 = 45 ∧ s.getD 23 0 = 45 then
    ([0, 2, 4, 6, 9, 11, 14, 16, 19, 21, 24, 26, 28, 30, 32, 34] : List Nat).mapM
      (fun x => xtob (s.getD x 0) (s.getD (x + 1) 0))
  else none

/-- ASCII lowercasing of one byte, as `strings.ToLower` acts on the
ASCII-only prefix `urn:uuid:`. -/
def toLowerByte (c : Nat) : Nat :=
  if 65 ≤ c ∧ c ≤ 90 then c + 32 else c

/-- The bytes of `urn:uuid:`. -/
def urnUuidTag : GoStr := [117, 114, 110, 58, 117, 117, 105, 100, 58]

/-- Model of `uuid.Parse` of `github.com/google/uuid` (the library used by
`ProcessorRandomUUID`): length 36 is the canonical form; length 45 must
start with `urn:uuid:` (case-insensitively) followed by the canonical
form; length 38 drops the first byte (brace form) and reads a canonical
form; length 32 is thirty-two hex characters; any other length fails. -/
def uuidParse (s : GoStr) : Option UUIDb :=
  if s.length = 36 then parse36 s
  else if s.length = 45 then
    if (s.take 9).map toLowerByte = urnUuidTag then parse36 (s.drop 9) else none
  else if s.length = 38 then parse36 (s.drop 1)
  else if s.length = 32 then
    (List.range 16).mapM (fun j => xtob (s.getD (2 * j) 0) (s.getD (2 * j + 1) 0))
  else none

/-- One lowercase hex character for a value below 16. -/
def hexDigit (n : Nat) : Nat := if n < 10 then 48 + n else 87 + n

/-- Two lowercase hex characters for one byte. -/
def byteHex (b : Nat) : GoStr := [hexDigit (b / 16), hexDigit (b % 16)]

/-- Model of `UUID.String()` of `github.com/google/uuid`: the sixteen
bytes in lowercase hex, grouped 4-2-2-2-6 with dashes. -/
def uuidString (u : UUIDb) : GoStr :=
  ((u.take 4).map byteHex).flatten ++ [45] ++
  (((u.drop 4).take 2).map byteHex).flatten ++ [45] ++
  (((u.drop 6).take 2).map byteHex).flatten ++ [45] ++
  (((u.drop 8).take 2).map byteHex).flatten ++ [45] ++
  ((u.drop 10).map byteHex).flatten

/-- Model of `uuid.NewRandom()`: sixteen random bytes with the version
nibble of byte 6 forced to 4 (`u[6] = u[6]&0x0f | 0x40`) and the variant
bits of byte 8 forced to 10 (`u[8] = u[8]&0x3f | 0x80`).  The entropy
source is the random stream, so the model never fails. -/
def newRandomUUID (g : Nat → Nat) (i : Nat) : UUIDb × Nat :=
  let bs := (List.range 16).map (fun j => g (i + j) % 256)
  ((bs.set 6 (bs.getD 6 0 % 16 + 64)).set 8 (bs.getD 8 0 % 64 + 128), i + 16)

/-- The global UUID consistency store `UUIDMap` (`map[uuid.UUID]uuid.UUID`). -/
abbrev UUIDMapT := List (UUIDb × UUIDb)

/-- Model of `randomizeUUID` (`processors.go`): if the parsed input UUID
is absent from `UUIDMap`, draw a fresh random UUID, store it, and return
its string form; otherwise return the string form of the stored UUID. -/
def randomizeUUID (input : UUIDb) (m : UUIDMapT) (g : Nat → Nat) (i : Nat) :
    GoStr × UUIDMapT × Nat :=
  match alookup m input with
  | none =>
    let p := newRandomUUID g i
    (uuidString p.1, ainsert m input p.1, p.2)
  | some u => (uuidString u, m, i)

/-- Model of `ProcessorRandomUUID` (`processors.go`).  Note the error
flow of the Go code: `inputID, err := uuid.Parse(input)`; when parsing
fails the code sets `scrambledUUID = ""` but never clears `err`, so
`return scrambledUUID, err` surfaces the parse error (`some ()`).  On a
parse success the error is the one returned by `randomizeUUID`, which is
nil in this model (see `newRandomUUID`).  Result:
((output string, error), new UUID map, new random cursor). -/
def ProcessorRandomUUID (input : GoStr) (m : UUIDMapT) (g : Nat → Nat)
    (i : Nat) : (GoStr × Option Unit) × UUIDMapT × Nat :=
  match uuidParse input with
  | none => (([], some ()), m, i)
  | some id =>
    let r := randomizeUUID id m g i
    ((r.1, none), r.2.1, r.2.2)

/-- Gregorian leap-year test, as implemented by Go's `time` package. -/
def isLeap (y : Nat) : Bool :=
  y % 4 = 0 && (!(y % 100 = 0) || y % 400 = 0)

/-- Number of days of month `m` (1-12) in year `y`. -/
def daysInMonth (y m : Nat) : Nat :=
  if m = 2 then (if isLeap y then 29 else 28)
  else if m = 4 ∨ m = 6 ∨ m = 9 ∨ m = 11 then 30
  else 31

/-- Model of the Go helper `date` (`processors.go`), i.e.
`time.Date(year, month, day, 0, 0, 0, 0, time.UTC)` followed by reading
back the normalized (Year, Month, Day) triple.  `time.Date` normalizes
out-of-range days: day 0 is the last day of the previous month, and a day
beyond the month's length carries into the next month.  The model covers
exactly the arguments `randomizeDate` produces: `1 ≤ m ≤ 12` and
`0 ≤ d ≤ 31` (so at most one month of carry). -/
def date (y m d : Nat) : Nat × Nat × Nat :=
  if d = 0 then
    if m = 1 then (y - 1, 12, 31)
    else (y, m - 1, daysInMonth y (m - 1))
  else if d ≤ daysInMonth y m then (y, m, d)
  else if m = 12 then (y + 1, 1, d - daysInMonth y 12)
  else (y, m + 1, d - daysInMonth y m)

/-- The normalized (Year, Month, Day) triple computed by `randomizeDate`
(`processors.go`): `randMonth := rand.Intn(12) + 1`, then
`monthMaxDay := date(year, randMonth, 0).Day()` (note: day zero of the
*selected* month, i.e. the last day of the month before it), then
`randDay := rand.Intn(monthMaxDay) + 1`, then
`date(year, randMonth, randDay)`. -/
def randomizeDateParts (year : Nat) (g : Nat → Nat) (i : Nat) :
    Nat × Nat × Nat :=
  let randMonth := g i % 12 + 1
  let monthMaxDay := (date year randMonth 0).2.2
  let randDay := g (i + 1) % monthMaxDay + 1
  date year randMonth randDay

/-- Two ASCII digits, zero padded (Go `Format` layout `01` / `02`). -/
def pad2 (n : Nat) : GoStr := [48 + n / 10 % 10, 48 + n % 10]

/-- Four ASCII digits, zero padded (Go `Format` layout `2006` for years
up to 9999). -/
def pad4 (n : Nat) : GoStr :=
  [48 + n / 1000 % 10, 48 + n / 100 % 10, 48 + n / 10 % 10, 48 + n % 10]

/-- Go `Format("2006-01-02")` of a normalized (Year, Month, Day) triple. -/
def formatISO : Nat × Nat × Nat → GoStr
  | (y, m, d) => pad4 y ++ [45] ++ pad2 m ++ [45] ++ pad2 d

/-- Model of `randomizeDate` (`processors.go`): the normalized random
date of `randomizeDateParts`, formatted as `YYYY-MM-DD`. -/
def randomizeDate (year : Nat) (g : Nat → Nat) (i : Nat) : GoStr :=
  formatISO (randomizeDateParts year g i)

/-- Parser for the spec's "parses back as a valid calendar date" check: a
ten-byte `YYYY-MM-DD` string is read back into its numeric components
(dashes, byte 45, at offsets 4 and 7, digits everywhere else). -/
def parseISO (s : GoStr) : Option (Nat × Nat × Nat) :=
  if s.length = 10 ∧ s.getD 4 0 = 45 ∧ s.getD 7 0 = 45 ∧
      (∀ j, j ∈ ([0, 1, 2, 3, 5, 6, 8, 9] : List Nat) →
        48 ≤ s.getD j 0 ∧ s.getD j 0 ≤ 57) then
    some ((s.getD 0 0 - 48) * 1000 + (s.getD 1 0 - 48) * 100 +
            (s.getD 2 0 - 48) * 10 + (s.getD 3 0 - 48),
          (s.getD 5 0 - 48) * 10 + (s.getD 6 0 - 48),
          (s.getD 8 0 - 48) * 10 + (s.getD 9 0 - 48))
  else none

/-- The combined process-wide mutable state: the three consistency maps.
The spec says the store is created empty at process start. -/
structure PState where
  alpha : AlphaMap
  uuidm : UUIDMapT
  iban : IBANMapT
deriving DecidableEq

/-- The empty store at process start. -/
def initState : PState := ⟨[], [], []⟩

/-- One invocation of one of the three consistency-preserving processors,
with its column metadata / input and its view of the random stream. -/
inductive Call where
  | alphaC (c : ColumnMapper) (input : GoStr) (g : Nat → Nat) (i : Nat)
  | uuidC (input : GoStr) (g : Nat → Nat) (i : Nat)
  | ibanC (input : GoStr) (g : Nat → Nat) (i : Nat)

/-- Effect of one processor invocation on the shared store; `none` models
the runtime panic of the IBAN scrambler on short, unmemoized input. -/
def step (s : PState) : Call → Option PState
  | .alphaC c input g i =>
    some { s with alpha := (ProcessorAlphaNumericScrambler c input s.alpha g i).2.1 }
  | .uuidC input g i =>
    some { s with uuidm := (ProcessorRandomUUID input s.uuidm g i).2.1 }
  | .ibanC input g i =>
    match ProcessorIBANScrambler s.iban input g i with
    | some r => some { s with iban := r.2.1 }
    | none => none

/-- Run a sequence of processor invocations. -/
def runCalls : PState → List Call → Option PState
  | s, [] => some s
  | s, c :: cs =>
    match step s c with
    | some s' => runCalls s' cs
    | none => none

/-! ## Helper lemmas about `ProcessorAlphaNumericScrambler` -/

/-- After a parent-scoped invocation, the returned output is bound to the
raw input under the scope key. -/
theorem alpha_out_mem (c : ColumnMapper) (input : GoStr) (m : AlphaMap)
    (g : Nat → Nat) (i : Nat)
    (h1 : c.ParentSchema ≠ []) (h2 : c.ParentTable ≠ []) (h3 : c.ParentColumn ≠ []) :
    lookup2 (ProcessorAlphaNumericScrambler c input m g i).2.1 (parentKeyOf c) input
      = some (ProcessorAlphaNumericScrambler c input m g i).1 := by
  by_cases hm : ((alookup m (parentKeyOf c)).getD []).length < 1
  · simp [ProcessorAlphaNumericScrambler, h1, h2, h3, hm, lookup2]
  · cases hsub : alookup m (parentKeyOf c) with
    | none => exact absurd (by simp [hsub]) hm
    | some sub =>
      have hsubne : sub ≠ [] := by
        intro e
        exact hm (by simp [hsub, e])
      cases hv : alookup sub input with
      | none =>
        simp [ProcessorAlphaNumericScrambler, h1, h2, h3, hsub, hsubne, hv, lookup2]
      | some v =>
        rcases eq_or_ne v [] with hveq | hvne
        · subst hveq
          simp [ProcessorAlphaNumericScrambler, h1, h2, h3, hsub, hsubne, hv, lookup2]
        · simp [ProcessorAlphaNumericScrambler, h1, h2, h3, hsub, hsubne, hv, hvne, lookup2]

/-- The output of the alphanumeric processor is empty only on empty input. -/
theorem alpha_out_nil (c : ColumnMapper) (input : GoStr) (m : AlphaMap)
    (g : Nat → Nat) (i : Nat)
    (h : (ProcessorAlphaNumericScrambler c input m g i).1 = []) : input = [] := by
  rw [← scrambleString_eq_nil_iff input g i]
  by_cases hpar : c.ParentSchema ≠ [] ∧ c.ParentTable ≠ [] ∧ c.ParentColumn ≠ []
  · by_cases hm : ((alookup m (parentKeyOf c)).getD []).length < 1
    · simpa [ProcessorAlphaNumericScrambler, hpar, hm] using h
    · cases hsub : alookup m (parentKeyOf c) with
      | none => exact absurd (by simp [hsub]) hm
      | some sub =>
        have hsubne : sub ≠ [] := by
          intro e
          exact hm (by simp [hsub, e])
        cases hv : alookup sub input with
        | none => simpa [ProcessorAlphaNumericScrambler, hpar, hsub, hsubne, hv] using h
        | some v =>
          rcases eq_or_ne v [] with hveq | hvne
          · subst hveq
            simpa [ProcessorAlphaNumericScrambler, hpar, hsub, hsubne, hv] using h
          · simp [ProcessorAlphaNumericScrambler, hpar, hsub, hsubne, hv, hvne] at h
  · simpa [ProcessorAlphaNumericScrambler, hpar] using h

/-- The length invariant of the alphanumeric store: every memoized value
has the byte length of its raw key (true of every reachable store, since
stored values are outputs of `scrambleString`). -/
def alphaLenInv (m : AlphaMap) : Prop :=
  ∀ pk inp w, lookup2 m pk inp = some w → w.length = inp.length

/-- An invocation of the alphanumeric processor never removes or changes
an existing binding of the store. -/
theorem alpha_preserve (c : ColumnMapper) (input : GoStr) (m : AlphaMap)
    (g : Nat → Nat) (i : Nat) (pk2 inp2 v : GoStr)
    (hinv : alphaLenInv m) (h : lookup2 m pk2 inp2 = some v) :
    lookup2 (ProcessorAlphaNumericScrambler c input m g i).2.1 pk2 inp2 = some v := by
  by_cases hpar : c.ParentSchema ≠ [] ∧ c.ParentTable ≠ [] ∧ c.ParentColumn ≠ []
  case neg => simpa [ProcessorAlphaNumericScrambler, hpar, lookup2] using h
  case pos =>
  by_cases hpk : pk2 = parentKeyOf c
  case neg =>
    have hpk2 : parentKeyOf c ≠ pk2 := Ne.symm hpk
    by_cases hm : ((alookup m (parentKeyOf c)).getD []).length < 1
    · by_cases hv : ((alookup ((alookup (ainsert m (parentKeyOf c) [])
          (parentKeyOf c)).getD []) input).getD []).length < 1
      · simpa [ProcessorAlphaNumericScrambler, hpar, hm, hv, lookup2,
          alookup_ainsert_ne hpk2] using h
      · simpa [ProcessorAlphaNumericScrambler, hpar, hm, hv, lookup2,
          alookup_ainsert_ne hpk2] using h
    · by_cases hv : ((alookup ((alookup m (parentKeyOf c)).getD []) input).getD []).length < 1
      · simpa [ProcessorAlphaNumericScrambler, hpar, hm, hv, lookup2,
          alookup_ainsert_ne hpk2] using h
      · simpa [ProcessorAlphaNumericScrambler, hpar, hm, hv, lookup2,
          alookup_ainsert_ne hpk2] using h
  case pos =>
    subst hpk
    cases hsub : alookup m (parentKeyOf c) with
    | none => simp [lookup2, hsub] at h
    | some sub =>
      have halo : alookup sub inp2 = some v := by simpa [lookup2, hsub] using h
      have hsubne : sub ≠ [] := alookup_ne_nil halo
      cases hv : alookup sub input with
      | none =>
        have hne : input ≠ inp2 := by
          intro e
          rw [e, halo] at hv
          cases hv
        simp [ProcessorAlphaNumericScrambler, hpar, hsub, hsubne, hv, lookup2,
          alookup_ainsert_ne hne, halo]
      | some w =>
        rcases eq_or_ne w [] with hweq | hwne
        · subst hweq
          rcases eq_or_ne input inp2 with hie | hie
          · subst hie
            rw [halo] at hv
            obtain rfl : v = [] := by cases hv; rfl
            have hlen := hinv _ _ _ h
            have hinp : input = [] := List.length_eq_zero.mp (by simpa using hlen.symm)
            subst hinp
            simp [ProcessorAlphaNumericScrambler, hpar, hsub, hsubne, halo, lookup2]
          · simp [ProcessorAlphaNumericScrambler, hpar, hsub, hsubne, hv, lookup2,
              alookup_ainsert_ne hie, halo]
        · simp [ProcessorAlphaNumericScrambler, hpar, hsub, hsubne, hv, hwne, lookup2,
            hsub, halo]

/-- An invocation of the alphanumeric processor keeps the length
invariant of the store. -/
theorem alpha_lenInv_preserved (c : ColumnMapper) (input : GoStr) (m : AlphaMap)
    (g : Nat → Nat) (i : Nat) (hinv : alphaLenInv m) :
    alphaLenInv (ProcessorAlphaNumericScrambler c input m g i).2.1 := by
  intro pk2 inp2 w hw
  by_cases hpar : c.ParentSchema ≠ [] ∧ c.ParentTable ≠ [] ∧ c.ParentColumn ≠ []
  case neg =>
    exact hinv _ _ _ (by simpa [ProcessorAlphaNumericScrambler, hpar, lookup2] using hw)
  case pos =>
  by_cases hpk : pk2 = parentKeyOf c
  case neg =>
    have hpk2 : parentKeyOf c ≠ pk2 := Ne.symm hpk
    refine hinv pk2 inp2 w ?h
    by_cases hm : ((alookup m (parentKeyOf c)).getD []).length < 1
    · by_cases hv : ((alookup ((alookup (ainsert m (parentKeyOf c) [])
          (parentKeyOf c)).getD []) input).getD []).length < 1
      · simpa [ProcessorAlphaNumericScrambler, hpar, hm, hv, lookup2,
          alookup_ainsert_ne hpk2] using hw
      · simpa [ProcessorAlphaNumericScrambler, hpar, hm, hv, lookup2,
          alookup_ainsert_ne hpk2] using hw
    · by_cases hv : ((alookup ((alookup m (parentKeyOf c)).getD []) input).getD []).length < 1
      · simpa [ProcessorAlphaNumericScrambler, hpar, hm, hv, lookup2,
          alookup_ainsert_ne hpk2] using hw
      · simpa [ProcessorAlphaNumericScrambler, hpar, hm, hv, lookup2,
          alookup_ainsert_ne hpk2] using hw
  case pos =>
    subst hpk
    by_cases hm : ((alookup m (parentKeyOf c)).getD []).length < 1
    · rcases eq_or_ne inp2 input with hie | hie
      · subst hie
        simp [ProcessorAlphaNumericScrambler, hpar, hm, lookup2] at hw
        rw [← hw, scrambleString_length]
      · simp [ProcessorAlphaNumericScrambler, hpar, hm, lookup2,
          alookup_ainsert_ne (Ne.symm hie)] at hw
    · cases hsub : alookup m (parentKeyOf c) with
      | none => exact absurd (by simp [hsub]) hm
      | some sub =>
        have hsubne : sub ≠ [] := by
          intro e
          exact hm (by simp [hsub, e])
        cases hv : alookup sub input with
        | none =>
          rcases eq_or_ne inp2 input with hie | hie
          · subst hie
            simp [ProcessorAlphaNumericScrambler, hpar, hsub, hsubne, hv, lookup2] at hw
            rw [← hw, scrambleString_length]
          · simp [ProcessorAlphaNumericScrambler, hpar, hsub, hsubne, hv, lookup2,
              alookup_ainsert_ne (Ne.symm hie)] at hw
            exact hinv (parentKeyOf c) inp2 w (by simp [lookup2, hsub, hw])
        | some w2 =>
          rcases eq_or_ne w2 [] with hweq | hwne
          · subst hweq
            rcases eq_or_ne inp2 input with hie | hie
            · subst hie
              simp [ProcessorAlphaNumericScrambler, hpar, hsub, hsubne, hv, lookup2] at hw
              rw [← hw, scrambleString_length]
            · simp [ProcessorAlphaNumericScrambler, hpar, hsub, hsubne, hv, lookup2,
                alookup_ainsert_ne (Ne.symm hie)] at hw
              exact hinv (parentKeyOf c) inp2 w (by simp [lookup2, hsub, hw])
          · simp [ProcessorAlphaNumericScrambler, hpar, hsub, hsubne, hv, hwne, lookup2] at hw
            exact hinv (parentKeyOf c) inp2 w (by simp [lookup2, hsub, hw])

/-- Idempotence of the parent-scoped alphanumeric scramble: a second call
with the same metadata and raw input returns the first call's output, no
matter what the random source yields in between. -/
theorem alpha_second (c : ColumnMapper) (input : GoStr) (m : AlphaMap)
    (g : Nat → Nat) (i : Nat) (g2 : Nat → Nat) (i2 : Nat)
    (h1 : c.ParentSchema ≠ []) (h2 : c.ParentTable ≠ []) (h3 : c.ParentColumn ≠ []) :
    (ProcessorAlphaNumericScrambler c input
        (ProcessorAlphaNumericScrambler c input m g i).2.1 g2 i2).1
      = (ProcessorAlphaNumericScrambler c input m g i).1 := by
  have hmem := alpha_out_mem c input m g i h1 h2 h3
  cases hsub : alookup (ProcessorAlphaNumericScrambler c input m g i).2.1 (parentKeyOf c) with
  | none => simp [lookup2, hsub] at hmem
  | some sub =>
    have halo : alookup sub input
        = some (ProcessorAlphaNumericScrambler c input m g i).1 := by
      simpa [lookup2, hsub] using hmem
    have hsubne : sub ≠ [] := alookup_ne_nil halo
    rcases eq_or_ne (ProcessorAlphaNumericScrambler c input m g i).1 [] with ho | ho
    · have hin : input = [] := alpha_out_nil c input m g i ho
      subst hin
      rw [ho] at halo
      rw [ho]
      generalize (ProcessorAlphaNumericScrambler c [] m g i).2.1 = M at hsub ⊢
      simp [ProcessorAlphaNumericScrambler, h1, h2, h3, hsub, hsubne, halo]
    · generalize hout : (ProcessorAlphaNumericScrambler c input m g i).1 = out at halo ho ⊢
      generalize (ProcessorAlphaNumericScrambler c input m g i).2.1 = M at hsub ⊢
      simp [ProcessorAlphaNumericScrambler, h1, h2, h3, hsub, hsubne, halo, ho]

/-! ## Helper lemmas about the IBAN and UUID processors -/

/-- The country-code-preserving invariant of the IBAN store: every
memoized value starts with the first two bytes of its key (true of every
reachable store). -/
def ibanCCInv (m : IBANMapT) : Prop :=
  ∀ k v, alookup m k = some v → v.take 2 = k.take 2

/-- Full characterization of a successful IBAN invocation on an input of
length at least two, assuming the store's country-code invariant. -/
theorem iban_spec (m : IBANMapT) (input : GoStr) (g : Nat → Nat) (i : Nat)
    (hcc : ibanCCInv m) (hlen : 2 ≤ input.length) :
    ∃ out m2 i2, ProcessorIBANScrambler m input g i = some (out, m2, i2) ∧
      out.take 2 = input.take 2 ∧
      alookup m2 input = some out ∧
      (alookup m input = none →
        out = input.take 2 ++ (scrambleString (input.drop 2) g i).1 ∧
        m2 = ainsert m input out) ∧
      ibanCCInv m2 := by
  cases hhit : alookup m input with
  | some v =>
    refine ⟨v, m, i, ?_, ?_, ?_, ?_, ?_⟩
    · simp [ProcessorIBANScrambler, hhit]
    · exact hcc _ _ hhit
    · exact hhit
    · intro hnone
      exact Option.noConfusion hnone
    · exact hcc
  | none =>
    have hl2 : (input.take 2).length = 2 := by
      rw [List.length_take]
      omega
    have htk : (input.take 2 ++ (scrambleString (input.drop 2) g i).1).take 2
        = input.take 2 := by
      simp [List.take_append_eq_append_take, hl2, List.take_take]
    refine ⟨input.take 2 ++ (scrambleString (input.drop 2) g i).1,
      ainsert m input (input.take 2 ++ (scrambleString (input.drop 2) g i).1),
      (scrambleString (input.drop 2) g i).2, ?_, htk, ?_, ?_, ?_⟩
    · simp [ProcessorIBANScrambler, hhit, hlen]
    · simp
    · exact fun _ => ⟨rfl, rfl⟩
    · intro k v hkv
      by_cases hk : input = k
      · subst hk
        have hvv : v = input.take 2 ++ (scrambleString (input.drop 2) g i).1 := by
          simpa using hkv.symm
        rw [hvv, htk]
      · rw [alookup_ainsert_ne hk] at hkv
        exact hcc _ _ hkv

/-- An IBAN invocation that does not panic never removes or changes an
existing binding of the IBAN store. -/
theorem iban_preserve (m : IBANMapT) (input : GoStr) (g : Nat → Nat) (i : Nat)
    (r : GoStr × IBANMapT × Nat) (hr : ProcessorIBANScrambler m input g i = some r)
    (k v : GoStr) (h : alookup m k = some v) : alookup r.2.1 k = some v := by
  cases hhit : alookup m input with
  | some w =>
    simp [ProcessorIBANScrambler, hhit] at hr
    rw [← hr]
    exact h
  | none =>
    by_cases hlen : 2 ≤ input.length
    · simp [ProcessorIBANScrambler, hhit, hlen] at hr
      have hk : input ≠ k := by
        intro e
        rw [e, h] at hhit
        cases hhit
      rw [← hr]
      simpa [alookup_ainsert_ne hk] using h
    · simp [ProcessorIBANScrambler, hhit, hlen] at hr

/-- The second IBAN invocation on the same input returns the first
invocation's output. -/
theorem iban_second (m : IBANMapT) (input : GoStr) (g : Nat → Nat) (i : Nat)
    (g2 : Nat → Nat) (i2 : Nat) (r : GoStr × IBANMapT × Nat)
    (hr : ProcessorIBANScrambler m input g i = some r) :
    ∃ r2, ProcessorIBANScrambler r.2.1 input g2 i2 = some r2 ∧ r2.1 = r.1 := by
  have hmem : alookup r.2.1 input = some r.1 := by
    cases hhit : alookup m input with
    | some w =>
      simp [ProcessorIBANScrambler, hhit] at hr
      rw [← hr]
      simpa using hhit
    | none =>
      by_cases hlen : 2 ≤ input.length
      · simp [ProcessorIBANScrambler, hhit, hlen] at hr
        rw [← hr]
        simp
      · simp [ProcessorIBANScrambler, hhit, hlen] at hr
  exact ⟨(r.1, r.2.1, i2), by simp [ProcessorIBANScrambler, hmem], rfl⟩

/-- A UUID invocation never removes or changes an existing binding of the
UUID store. -/
theorem uuid_preserve (input : GoStr) (m : UUIDMapT) (g : Nat → Nat) (i : Nat)
    (k v : UUIDb) (h : alookup m k = some v) :
    alookup (ProcessorRandomUUID input m g i).2.1 k = some v := by
  cases hp : uuidParse input with
  | none => simpa [ProcessorRandomUUID, hp] using h
  | some id =>
    cases hhit : alookup m id with
    | some u => simpa [ProcessorRandomUUID, randomizeUUID, hp, hhit] using h
    | none =>
      have hk : id ≠ k := by
        intro e
        rw [e, h] at hhit
        cases hhit
      simpa [ProcessorRandomUUID, randomizeUUID, hp, hhit, alookup_ainsert_ne hk] using h

/-- The second UUID invocation on the same parseable input returns the
first invocation's output string. -/
theorem uuid_second (input : GoStr) (m : UUIDMapT) (g : Nat → Nat) (i : Nat)
    (g2 : Nat → Nat) (i2 : Nat) (id : UUIDb) (hp : uuidParse input = some id) :
    (ProcessorRandomUUID input (ProcessorRandomUUID input m g i).2.1 g2 i2).1.1
      = (ProcessorRandomUUID input m g i).1.1 := by
  cases hhit : alookup m id with
  | some u => simp [ProcessorRandomUUID, randomizeUUID, hp, hhit]
  | none => simp [ProcessorRandomUUID, randomizeUUID, hp, hhit]

theorem date_maxday (y mo : Nat) (h1 : 1 ≤ mo) (h2 : mo ≤ 12) :
    28 ≤ (date y mo 0).2.2 ∧ (date y mo 0).2.2 ≤ 31 := by
  interval_cases mo <;> by_cases hL : isLeap y = true <;>
    simp [date, daysInMonth, hL]

theorem date_parts_valid (y mo d0 : Nat) (hmo1 : 1 ≤ mo) (hmo2 : mo ≤ 12)
    (hd1 : 1 ≤ d0) (hd2 : d0 ≤ (date y mo 0).2.2) :
    (date y mo d0).1 = y ∧
    1 ≤ (date y mo d0).2.1 ∧ (date y mo d0).2.1 ≤ 12 ∧
    1 ≤ (date y mo d0).2.2 ∧ (date y mo d0).2.2 ≤ daysInMonth y (date y mo d0).2.1 ∧
    ((date y mo d0).2.1 = 2 ∧ (date y mo d0).2.2 = 29 → isLeap y = true) := by
  have hd0 : d0 ≠ 0 := by omega
  interval_cases mo <;> by_cases hL : isLeap y = true <;>
    simp [date, daysInMonth, hL, hd0] at hd2 ⊢ <;>
    split_ifs <;> (try simp_all) <;> (try omega)

theorem parseISO_formatISO (y m d : Nat) (hy : y ≤ 9999) (hm : m ≤ 99) (hd : d ≤ 99) :
    parseISO (formatISO (y, m, d)) = some (y, m, d) := by
  simp only [formatISO, pad4, pad2, List.cons_append, List.nil_append, parseISO]
  rw [if_pos]
  · simp only [List.getD_cons_succ, List.getD_cons_zero, Option.some.injEq, Prod.mk.injEq]
    refine ⟨by omega, by omega, by omega⟩
  · refine ⟨by simp, by simp, by simp, ?_⟩
    intro j hj
    fin_cases hj <;> simp <;> omega

/-- One processor invocation keeps the alphanumeric length invariant and
never removes or changes any existing binding of the three stores. -/
theorem step_preserve (s : PState) (c : Call) (s2 : PState)
    (hinv : alphaLenInv s.alpha) (h : step s c = some s2) :
    alphaLenInv s2.alpha ∧
    (∀ pk inp v, lookup2 s.alpha pk inp = some v → lookup2 s2.alpha pk inp = some v) ∧
    (∀ k v, alookup s.uuidm k = some v → alookup s2.uuidm k = some v) ∧
    (∀ k v, alookup s.iban k = some v → alookup s2.iban k = some v) := by
  cases c with
  | alphaC cm input g i =>
    simp only [step, Option.some.injEq] at h
    subst h
    exact ⟨alpha_lenInv_preserved cm input s.alpha g i hinv,
      fun pk inp v hv => alpha_preserve cm input s.alpha g i pk inp v hinv hv,
      fun k v hv => hv, fun k v hv => hv⟩
  | uuidC input g i =>
    simp only [step, Option.some.injEq] at h
    subst h
    exact ⟨hinv, fun pk inp v hv => hv,
      fun k v hv => uuid_preserve input s.uuidm g i k v hv, fun k v hv => hv⟩
  | ibanC input g i =>
    simp only [step] at h
    cases hr : ProcessorIBANScrambler s.iban input g i with
    | none => rw [hr] at h; cases h
    | some r =>
      rw [hr] at h
      simp only [Option.some.injEq] at h
      subst h
      exact ⟨hinv, fun pk inp v hv => hv, fun k v hv => hv,
        fun k v hv => iban_preserve s.iban input g i r hr k v hv⟩

/-- Running any sequence of invocations keeps the length invariant and
preserves every binding of every store. -/
theorem runCalls_preserve (cs : List Call) (s s2 : PState)
    (hinv : alphaLenInv s.alpha) (h : runCalls s cs = some s2) :
    alphaLenInv s2.alpha ∧
    (∀ pk inp v, lookup2 s.alpha pk inp = some v → lookup2 s2.alpha pk inp = some v) ∧
    (∀ k v, alookup s.uuidm k = some v → alookup s2.uuidm k = some v) ∧
    (∀ k v, alookup s.iban k = some v → alookup s2.iban k = some v) := by
  induction cs generalizing s with
  | nil =>
    simp only [runCalls, Option.some.injEq] at h
    subst h
    exact ⟨hinv, fun _ _ _ hh => hh, fun _ _ hh => hh, fun _ _ hh => hh⟩
  | cons c cs ih =>
    simp only [runCalls] at h
    cases hst : step s c with
    | none => rw [hst] at h; cases h
    | some s1 =>
      rw [hst] at h
      obtain ⟨h1, h2, h3, h4⟩ := step_preserve s c s1 hinv hst
      obtain ⟨g1, g2, g3, g4⟩ := ih s1 h1 h
      exact ⟨g1, fun pk inp v hh => g2 _ _ _ (h2 _ _ _ hh),
        fun k v hh => g3 _ _ (h3 _ _ hh), fun k v hh => g4 _ _ (h4 _ _ hh)⟩

/-- Every month has at most 31 days. -/
theorem daysInMonth_le31 (y m : Nat) : daysInMonth y m ≤ 31 := by
  unfold daysInMonth
  split_ifs <;> omega

/-- Splitting at a separator byte is unambiguous when neither prefix
contains the separator. -/
theorem append_dot_inj (a1 : GoStr) (a2 r1 r2 : GoStr)
    (h1 : ¬ 46 ∈ a1) (h2 : ¬ 46 ∈ a2)
    (h : a1 ++ 46 :: r1 = a2 ++ 46 :: r2) : a1 = a2 ∧ r1 = r2 := by
  induction a1 generalizing a2 with
  | nil =>
    cases a2 with
    | nil => simpa using h
    | cons x t =>
      simp only [List.nil_append, List.cons_append, List.cons.injEq] at h
      exact absurd (h.1 ▸ List.mem_cons_self x t) h2
  | cons x t ih =>
    cases a2 with
    | nil =>
      simp only [List.nil_append, List.cons_append, List.cons.injEq] at h
      exact absurd (h.1 ▸ List.mem_cons_self x t) h1
    | cons y u =>
      simp only [List.cons_append, List.cons.injEq] at h
      obtain ⟨hx, ht⟩ := h
      have ht1 : ¬ 46 ∈ t := fun hm => h1 (List.mem_cons_of_mem _ hm)
      have ht2 : ¬ 46 ∈ u := fun hm => h2 (List.mem_cons_of_mem _ hm)
      obtain ⟨e1, e2⟩ := ih u ht1 ht2 ht
      exact ⟨by rw [hx, e1], e2⟩

/-- The composite scope key determines the parent triple when the parent
schema and table names contain no dot. -/
theorem parentKeyOf_inj (c1 c2 : ColumnMapper)
    (d1 : ¬ 46 ∈ c1.ParentSchema) (d2 : ¬ 46 ∈ c1.ParentTable)
    (d3 : ¬ 46 ∈ c2.ParentSchema) (d4 : ¬ 46 ∈ c2.ParentTable)
    (h : parentKeyOf c1 = parentKeyOf c2) :
    c1.ParentSchema = c2.ParentSchema ∧ c1.ParentTable = c2.ParentTable ∧
      c1.ParentColumn = c2.ParentColumn := by
  have h1 : c1.ParentSchema ++ 46 :: (c1.ParentTable ++ 46 :: c1.ParentColumn)
      = c2.ParentSchema ++ 46 :: (c2.ParentTable ++ 46 :: c2.ParentColumn) := by
    simpa [parentKeyOf, List.append_assoc] using h
  obtain ⟨e1, h2'⟩ := append_dot_inj _ _ _ _ d1 d3 h1
  obtain ⟨e2, e3⟩ := append_dot_inj _ _ _ _ d2 d4 h2'
  exact ⟨e1, e2, e3⟩

/-! ## The claims -/

/-- C1: the claim states that for every input string that does not parse
as a UUID, `ProcessorRandomUUID` returns the empty string together with a
nil error.  This is false on the code: after `inputID, err :=
uuid.Parse(input)` fails, the code sets `scrambledUUID = ""` but never
clears `err`, so `return scrambledUUID, err` returns the parse error.
Counterexample at the concrete unparseable input `notauuid` (bytes
below): the returned error is `some ()`, not `none`. -/
theorem C1_counterexample :
    (ProcessorRandomUUID [110, 111, 116, 97, 117, 117, 105, 100] [] (fun _ => 0) 0).1
        = ([], some ()) ∧
    ¬ (ProcessorRandomUUID [110, 111, 116, 97, 117, 117, 105, 100] []
        (fun _ => 0) 0).1.2 = none := by
  exact ⟨rfl, by decide⟩

/-- C1 (amended): for every input string that does not parse as a UUID,
the UUID randomizer returns the empty string together with the (non-nil)
parse error and leaves the UUID map and the random cursor unchanged —
parse failure surfaces an error rather than degrading silently. -/
theorem C1_amended (input : GoStr) (m : UUIDMapT) (g : Nat → Nat) (i : Nat)
    (h : uuidParse input = none) :
    ProcessorRandomUUID input m g i = (([], some ()), m, i) := by
  simp [ProcessorRandomUUID, h]

/-- C1 witness: the amended claim applied at the concrete unparseable
input `notauuid`. -/
theorem C1_witness :
    uuidParse [110, 111, 116, 97, 117, 117, 105, 100] = none ∧
    ProcessorRandomUUID [110, 111, 116, 97, 117, 117, 105, 100] [] (fun _ => 0) 0
      = (([], some ()), [], 0) :=
  ⟨rfl, C1_amended [110, 111, 116, 97, 117, 117, 105, 100] [] (fun _ => 0) 0 rfl⟩

/-- C2: consistency idempotence of the three consistency-preserving
processors.  (1) With a fixed non-empty parent scope, a second
alphanumeric-scramble invocation on the same raw value returns the first
invocation's output whatever the random source yields in between.
(2) A second UUID invocation on the same parseable input returns the
first invocation's output string.  (3) A second IBAN invocation on the
same input returns the first invocation's output. -/
theorem C2_consistency_idempotence :
    (∀ (c : ColumnMapper) (input : GoStr) (m : AlphaMap) (g : Nat → Nat) (i : Nat)
        (g2 : Nat → Nat) (i2 : Nat),
      c.ParentSchema ≠ [] → c.ParentTable ≠ [] → c.ParentColumn ≠ [] →
      (ProcessorAlphaNumericScrambler c input
          (ProcessorAlphaNumericScrambler c input m g i).2.1 g2 i2).1
        = (ProcessorAlphaNumericScrambler c input m g i).1) ∧
    (∀ (input : GoStr) (m : UUIDMapT) (g : Nat → Nat) (i : Nat)
        (g2 : Nat → Nat) (i2 : Nat) (id : UUIDb),
      uuidParse input = some id →
      (ProcessorRandomUUID input (ProcessorRandomUUID input m g i).2.1 g2 i2).1.1
        = (ProcessorRandomUUID input m g i).1.1) ∧
    (∀ (m : IBANMapT) (input : GoStr) (g : Nat → Nat) (i : Nat)
        (g2 : Nat → Nat) (i2 : Nat) (r : GoStr × IBANMapT × Nat),
      ProcessorIBANScrambler m input g i = some r →
      ∃ r2, ProcessorIBANScrambler r.2.1 input g2 i2 = some r2 ∧ r2.1 = r.1) :=
  ⟨alpha_second, uuid_second, iban_second⟩

/-- C2 witness: the three idempotence statements applied at concrete
inputs (scope `a.b.c` with raw value `x`; the 32-zero UUID form; the
IBAN-like input `DE12`). -/
theorem C2_witness :
    ((ProcessorAlphaNumericScrambler ⟨[97], [98], [99]⟩ [120]
        (ProcessorAlphaNumericScrambler ⟨[97], [98], [99]⟩ [120] [] (fun _ => 0) 0).2.1
        (fun _ => 7) 5).1
      = (ProcessorAlphaNumericScrambler ⟨[97], [98], [99]⟩ [120] [] (fun _ => 0) 0).1) ∧
    ((ProcessorRandomUUID (List.replicate 32 48)
        (ProcessorRandomUUID (List.replicate 32 48) [] (fun _ => 0) 0).2.1
        (fun _ => 9) 3).1.1
      = (ProcessorRandomUUID (List.replicate 32 48) [] (fun _ => 0) 0).1.1) ∧
    (∃ r2, ProcessorIBANScrambler [([68, 69, 49, 50], [68, 69, 48, 48])] [68, 69, 49, 50]
        (fun _ => 4) 9 = some r2 ∧ r2.1 = [68, 69, 48, 48]) :=
  ⟨C2_consistency_idempotence.1 ⟨[97], [98], [99]⟩ [120] [] (fun _ => 0) 0 (fun _ => 7) 5
      (by decide) (by decide) (by decide),
   C2_consistency_idempotence.2.1 (List.replicate 32 48) [] (fun _ => 0) 0 (fun _ => 9) 3
      [0, 0, 0, 0, 0, 0, 0, 0, 0, 0, 0, 0, 0, 0, 0, 0] (by decide),
   C2_consistency_idempotence.2.2 [] [68, 69, 49, 50] (fun _ => 0) 0 (fun _ => 4) 9
      ([68, 69, 48, 48], [([68, 69, 49, 50], [68, 69, 48, 48])], 2) rfl⟩

/-- C3: for every input string and every state of the random source, the
character-class scrambler returns a string of the same byte length in
which every ASCII-lowercase position holds some ASCII-lowercase byte,
every ASCII-uppercase position holds some ASCII-uppercase byte, every
digit position holds some digit, and every other byte is unchanged. -/
theorem C3_class_preservation (s : GoStr) (g : Nat → Nat) (i : Nat) :
    (scrambleString s g i).1.length = s.length ∧
    ∀ k, k < s.length →
      ((97 ≤ s.getD k 0 ∧ s.getD k 0 ≤ 122) →
        (97 ≤ (scrambleString s g i).1.getD k 0 ∧
          (scrambleString s g i).1.getD k 0 ≤ 122)) ∧
      ((65 ≤ s.getD k 0 ∧ s.getD k 0 ≤ 90) →
        (65 ≤ (scrambleString s g i).1.getD k 0 ∧
          (scrambleString s g i).1.getD k 0 ≤ 90)) ∧
      ((48 ≤ s.getD k 0 ∧ s.getD k 0 ≤ 57) →
        (48 ≤ (scrambleString s g i).1.getD k 0 ∧
          (scrambleString s g i).1.getD k 0 ≤ 57)) ∧
      (¬ ((97 ≤ s.getD k 0 ∧ s.getD k 0 ≤ 122) ∨ (65 ≤ s.getD k 0 ∧ s.getD k 0 ≤ 90) ∨
            (48 ≤ s.getD k 0 ∧ s.getD k 0 ≤ 57)) →
        (scrambleString s g i).1.getD k 0 = s.getD k 0) :=
  ⟨scrambleString_length s g i, fun k hk => scrambleString_classMatch s g i k hk⟩

/-- C3 witness: the scramble of `aZ3-` under the constant-5 stream keeps
length 4, keeps position 0 lowercase, and keeps the dash at position 3. -/
theorem C3_witness :
    (scrambleString [97, 90, 51, 45] (fun _ => 5) 0).1.length
        = ([97, 90, 51, 45] : GoStr).length ∧
    (97 ≤ (scrambleString [97, 90, 51, 45] (fun _ => 5) 0).1.getD 0 0 ∧
      (scrambleString [97, 90, 51, 45] (fun _ => 5) 0).1.getD 0 0 ≤ 122) ∧
    (scrambleString [97, 90, 51, 45] (fun _ => 5) 0).1.getD 3 0
        = ([97, 90, 51, 45] : GoStr).getD 3 0 :=
  ⟨(C3_class_preservation [97, 90, 51, 45] (fun _ => 5) 0).1,
   ((C3_class_preservation [97, 90, 51, 45] (fun _ => 5) 0).2 0 (by decide)).1 (by decide),
   (((C3_class_preservation [97, 90, 51, 45] (fun _ => 5) 0).2 3
      (by decide)).2.2.2) (by decide)⟩

/-- C4: the claim states the date randomizer computes the selected
month's own last valid day (via day zero of the following month), so the
drawn day never exceeds the selected month's length and the emitted month
equals the selection.  The code instead calls `date(year, randMonth, 0)`
— day zero of the *selected* month, i.e. the last day of the month before
it — contradicting its own comment ("we need to find the last day of the
month" of the randomly selected month, citing the `month+1, 0` recipe).
At year 2019 with draws `rand.Intn(12) = 1` (February) and
`rand.Intn(31) = 29`, the code draws day 30 of February (February 2019
has 28 days) and emits 2019-03-02: the emitted month 3 is not the
selected month 2. -/
theorem C4_picked_month_overflow :
    randomizeDateParts 2019 (fun j => if j = 0 then 1 else 29) 0 = (2019, 3, 2) ∧
    (fun j => if j = 0 then 1 else 29) 0 % 12 + 1 = 2 ∧
    ¬ (randomizeDateParts 2019 (fun j => if j = 0 then 1 else 29) 0).2.1 = 2 := by
  exact ⟨rfl, rfl, by decide⟩

/-- C5: for every year in [1, 9999] and every random stream, the emitted
date string parses back as a valid calendar date of the same year, and a
February 29 output is possible only in a leap year. -/
theorem C5_date_validity (y : Nat) (g : Nat → Nat) (i : Nat)
    (_hy1 : 1 ≤ y) (hy2 : y ≤ 9999) :
    ∃ mo d, parseISO (randomizeDate y g i) = some (y, mo, d) ∧
      1 ≤ mo ∧ mo ≤ 12 ∧ 1 ≤ d ∧ d ≤ daysInMonth y mo ∧
      ((mo = 2 ∧ d = 29) → isLeap y = true) := by
  have hmo1 : 1 ≤ g i % 12 + 1 := by omega
  have hmo2 : g i % 12 + 1 ≤ 12 := by
    have := Nat.mod_lt (g i) (show 0 < 12 by norm_num)
    omega
  have hmax := date_maxday y (g i % 12 + 1) hmo1 hmo2
  have hd1 : 1 ≤ g (i + 1) % (date y (g i % 12 + 1) 0).2.2 + 1 := by omega
  have hd2 : g (i + 1) % (date y (g i % 12 + 1) 0).2.2 + 1
      ≤ (date y (g i % 12 + 1) 0).2.2 := by
    have := Nat.mod_lt (g (i + 1)) (show 0 < (date y (g i % 12 + 1) 0).2.2 by omega)
    omega
  have hparts := date_parts_valid y (g i % 12 + 1)
    (g (i + 1) % (date y (g i % 12 + 1) 0).2.2 + 1) hmo1 hmo2 hd1 hd2
  obtain ⟨e1, p1, p2, p3, p4, p5⟩ := hparts
  refine ⟨(date y (g i % 12 + 1) (g (i + 1) % (date y (g i % 12 + 1) 0).2.2 + 1)).2.1,
    (date y (g i % 12 + 1) (g (i + 1) % (date y (g i % 12 + 1) 0).2.2 + 1)).2.2,
    ?_, p1, p2, p3, p4, p5⟩
  have hre : randomizeDate y g i = formatISO
      ((date y (g i % 12 + 1) (g (i + 1) % (date y (g i % 12 + 1) 0).2.2 + 1)).1,
       (date y (g i % 12 + 1) (g (i + 1) % (date y (g i % 12 + 1) 0).2.2 + 1)).2.1,
       (date y (g i % 12 + 1) (g (i + 1) % (date y (g i % 12 + 1) 0).2.2 + 1)).2.2) := rfl
  rw [hre, e1]
  exact parseISO_formatISO y _ _ hy2 (le_trans p2 (by norm_num))
    (le_trans p4 (le_trans (daysInMonth_le31 y _) (by norm_num)))

/-- C5 witness: year 2020 with the constant-zero stream (January 1). -/
theorem C5_witness :
    ∃ mo d, parseISO (randomizeDate 2020 (fun _ => 0) 0) = some (2020, mo, d) ∧
      1 ≤ mo ∧ mo ≤ 12 ∧ 1 ≤ d ∧ d ≤ daysInMonth 2020 mo ∧
      ((mo = 2 ∧ d = 29) → isLeap 2020 = true) :=
  C5_date_validity 2020 (fun _ => 0) 0 (by norm_num) (by norm_num)

/-- C6: the claim states the IBAN scrambler handles inputs shorter than
two characters explicitly (e.g. with a format error) and is total.  This
is false on the code: `input[:2]` is sliced without a length guard, so a
short input that is not already memoized panics at runtime (modelled as
`none`).  Counterexample at the concrete one-byte input `X` with an empty
store. -/
theorem C6_counterexample :
    ProcessorIBANScrambler [] [88] (fun _ => 0) 0 = none := rfl

/-- C6 (amended): the IBAN scrambler is not total: it produces a defined
result exactly when the input is already memoized or has length at least
two; otherwise it performs an unguarded out-of-range slice (a runtime
panic, modelled as `none`). -/
theorem C6_amended (m : IBANMapT) (input : GoStr) (g : Nat → Nat) (i : Nat) :
    (ProcessorIBANScrambler m input g i).isSome = true ↔
      ((alookup m input).isSome = true ∨ 2 ≤ input.length) := by
  cases hhit : alookup m input with
  | some v => simp [ProcessorIBANScrambler, hhit]
  | none =>
    by_cases hlen : 2 ≤ input.length <;> simp [ProcessorIBANScrambler, hhit, hlen]

/-- C7: the claim states that any two all-non-empty distinct parent
triples give distinct composite scope keys.  This is false on the code:
the key is built by joining the three components with a dot, so the
triples (`a.b`, `c`, `d`) and (`a`, `b.c`, `d`) — distinct, all
components non-empty — produce the same key `a.b.c.d`. -/
theorem C7_counterexample :
    parentKeyOf ⟨[97, 46, 98], [99], [100]⟩ = parentKeyOf ⟨[97], [98, 46, 99], [100]⟩ ∧
    ¬ ((([97, 46, 98], [99], [100]) : GoStr × GoStr × GoStr)
        = ([97], [98, 46, 99], [100])) ∧
    ([97, 46, 98] : GoStr) ≠ [] ∧ ([99] : GoStr) ≠ [] ∧ ([100] : GoStr) ≠ [] ∧
    ([97] : GoStr) ≠ [] ∧ ([98, 46, 99] : GoStr) ≠ [] := by
  decide

/-- C7 (amended): for two column-metadata values whose all-non-empty
parent triples are distinct and whose parent schema and table names
contain no dot (byte 46), the composite scope keys are distinct, and an
entry inserted under one scope is never read back under the other. -/
theorem C7_amended (c1 c2 : ColumnMapper)
    (_h1 : c1.ParentSchema ≠ []) (_h2 : c1.ParentTable ≠ []) (_h3 : c1.ParentColumn ≠ [])
    (_h4 : c2.ParentSchema ≠ []) (_h5 : c2.ParentTable ≠ []) (_h6 : c2.ParentColumn ≠ [])
    (d1 : ¬ 46 ∈ c1.ParentSchema) (d2 : ¬ 46 ∈ c1.ParentTable)
    (d3 : ¬ 46 ∈ c2.ParentSchema) (d4 : ¬ 46 ∈ c2.ParentTable)
    (hne : ¬ (c1.ParentSchema = c2.ParentSchema ∧ c1.ParentTable = c2.ParentTable ∧
              c1.ParentColumn = c2.ParentColumn)) :
    parentKeyOf c1 ≠ parentKeyOf c2 ∧
    ∀ (m : AlphaMap) (sub : List (GoStr × GoStr)) (inp : GoStr),
      lookup2 (ainsert m (parentKeyOf c1) sub) (parentKeyOf c2) inp
        = lookup2 m (parentKeyOf c2) inp := by
  have hk : parentKeyOf c1 ≠ parentKeyOf c2 := fun h =>
    hne (parentKeyOf_inj c1 c2 d1 d2 d3 d4 h)
  exact ⟨hk, fun m sub inp => by simp [lookup2, alookup_ainsert_ne hk]⟩

/-- C7 witness: the amended claim applied to the dot-free distinct
triples (`a`, `b`, `c`) and (`a`, `b`, `d`). -/
theorem C7_witness :
    parentKeyOf ⟨[97], [98], [99]⟩ ≠ parentKeyOf ⟨[97], [98], [100]⟩ ∧
    lookup2 (ainsert [] (parentKeyOf ⟨[97], [98], [99]⟩) [([120], [121])])
        (parentKeyOf ⟨[97], [98], [100]⟩) [120]
      = lookup2 [] (parentKeyOf ⟨[97], [98], [100]⟩) [120] :=
  ⟨(C7_amended ⟨[97], [98], [99]⟩ ⟨[97], [98], [100]⟩ (by decide) (by decide) (by decide)
      (by decide) (by decide) (by decide) (by decide) (by decide) (by decide) (by decide)
      (by decide)).1,
   (C7_amended ⟨[97], [98], [99]⟩ ⟨[97], [98], [100]⟩ (by decide) (by decide) (by decide)
      (by decide) (by decide) (by decide) (by decide) (by decide) (by decide) (by decide)
      (by decide)).2 [] [([120], [121])] [120]⟩

/-- C8: for every input of length at least two (over any store satisfying
the reachable-store invariant that memoized values keep their key's
two-byte country code), the IBAN scrambler succeeds, its output keeps the
input's first two bytes, the output is memoized under the original raw
input, the output of a first occurrence is the preserved prefix followed
by the character-class scramble of the remainder, and the invariant is
maintained. -/
theorem C8_iban_contract (m : IBANMapT) (input : GoStr) (g : Nat → Nat) (i : Nat)
    (hcc : ibanCCInv m) (hlen : 2 ≤ input.length) :
    ∃ out m2 i2, ProcessorIBANScrambler m input g i = some (out, m2, i2) ∧
      out.take 2 = input.take 2 ∧
      alookup m2 input = some out ∧
      (alookup m input = none →
        out = input.take 2 ++ (scrambleString (input.drop 2) g i).1 ∧
        m2 = ainsert m input out) ∧
      ibanCCInv m2 :=
  iban_spec m input g i hcc hlen

/-- C8 witness: the contract applied to the input `DE12` over the empty
store. -/
theorem C8_witness :
    ∃ out m2 i2,
      ProcessorIBANScrambler [] [68, 69, 49, 50] (fun _ => 0) 0 = some (out, m2, i2) ∧
      out.take 2 = ([68, 69, 49, 50] : GoStr).take 2 ∧
      alookup m2 [68, 69, 49, 50] = some out ∧
      (alookup ([] : IBANMapT) [68, 69, 49, 50] = none →
        out = ([68, 69, 49, 50] : GoStr).take 2 ++
          (scrambleString (([68, 69, 49, 50] : GoStr).drop 2) (fun _ => 0) 0).1 ∧
        m2 = ainsert [] [68, 69, 49, 50] out) ∧
      ibanCCInv m2 :=
  C8_iban_contract [] [68, 69, 49, 50] (fun _ => 0) 0
    (fun k v h => by simp at h) (by decide)

/-- C9: starting from the empty store at process start, along any
sequence of invocations of the three consistency-preserving processors
(each invocation succeeding), once a key is bound in any of the three
stores, every later state binds it to the same value — values are never
changed and entries are never removed. -/
theorem C9_write_once (cs1 cs2 : List Call) (s1 s2 : PState)
    (h1 : runCalls initState cs1 = some s1) (h2 : runCalls s1 cs2 = some s2) :
    (∀ pk inp v, lookup2 s1.alpha pk inp = some v → lookup2 s2.alpha pk inp = some v) ∧
    (∀ k v, alookup s1.uuidm k = some v → alookup s2.uuidm k = some v) ∧
    (∀ k v, alookup s1.iban k = some v → alookup s2.iban k = some v) := by
  have hinv0 : alphaLenInv initState.alpha := by
    intro pk inp v hv
    simp [initState, lookup2] at hv
  obtain ⟨hinv1, -, -, -⟩ := runCalls_preserve cs1 initState s1 hinv0 h1
  obtain ⟨-, p1, p2, p3⟩ := runCalls_preserve cs2 s1 s2 hinv1 h2
  exact ⟨p1, p2, p3⟩

/-- C9 witness: an IBAN invocation on `DE12` from the empty store followed
by a UUID invocation; the IBAN binding survives unchanged. -/
theorem C9_witness :
    alookup (PState.iban ⟨[],
        [([0, 0, 0, 0, 0, 0, 0, 0, 0, 0, 0, 0, 0, 0, 0, 0],
          [0, 0, 0, 0, 0, 0, 64, 0, 128, 0, 0, 0, 0, 0, 0, 0])],
        [([68, 69, 49, 50], [68, 69, 48, 48])]⟩)
      [68, 69, 49, 50] = some [68, 69, 48, 48] :=
  (C9_write_once [Call.ibanC [68, 69, 49, 50] (fun _ => 0) 0]
    [Call.uuidC (List.replicate 32 48) (fun _ => 0) 0]
    ⟨[], [], [([68, 69, 49, 50], [68, 69, 48, 48])]⟩
    ⟨[], [([0, 0, 0, 0, 0, 0, 0, 0, 0, 0, 0, 0, 0, 0, 0, 0],
          [0, 0, 0, 0, 0, 0, 64, 0, 128, 0, 0, 0, 0, 0, 0, 0])],
        [([68, 69, 49, 50], [68, 69, 48, 48])]⟩
    (by decide) (by decide)).2.2 [68, 69, 49, 50] [68, 69, 48, 48] (by decide)

/-- C10: the alphanumeric scrambler memoizes exactly when all three
parent fields are non-empty: with any parent field empty the store is
left completely unchanged, and with all three non-empty the returned
output is bound to the raw input under the composite scope key. -/
theorem C10_memoization_iff (c : ColumnMapper) (input : GoStr) (m : AlphaMap)
    (g : Nat → Nat) (i : Nat) :
    ((c.ParentSchema = [] ∨ c.ParentTable = [] ∨ c.ParentColumn = []) →
      (ProcessorAlphaNumericScrambler c input m g i).2.1 = m) ∧
    ((c.ParentSchema ≠ [] ∧ c.ParentTable ≠ [] ∧ c.ParentColumn ≠ []) →
      lookup2 (ProcessorAlphaNumericScrambler c input m g i).2.1 (parentKeyOf c) input
        = some (ProcessorAlphaNumericScrambler c input m g i).1) := by
  constructor
  · intro hemp
    have hpar : ¬ (c.ParentSchema ≠ [] ∧ c.ParentTable ≠ [] ∧ c.ParentColumn ≠ []) := by
      tauto
    simp [ProcessorAlphaNumericScrambler, hpar]
  · intro hpar
    exact alpha_out_mem c input m g i hpar.1 hpar.2.1 hpar.2.2

/-- C10 witness: an empty parent schema leaves a non-trivial store
untouched; the full triple (`a`, `b`, `c`) memoizes the output of raw
input `x`. -/
theorem C10_witness :
    (ProcessorAlphaNumericScrambler ⟨[], [98], [99]⟩ [120]
        [([97], [([120], [121])])] (fun _ => 0) 0).2.1 = [([97], [([120], [121])])] ∧
    lookup2 (ProcessorAlphaNumericScrambler ⟨[97], [98], [99]⟩ [120] [] (fun _ => 0) 0).2.1
        (parentKeyOf ⟨[97], [98], [99]⟩) [120]
      = some (ProcessorAlphaNumericScrambler ⟨[97], [98], [99]⟩ [120] [] (fun _ => 0) 0).1 :=
  ⟨(C10_memoization_iff ⟨[], [98], [99]⟩ [120] [([97], [([120], [121])])] (fun _ => 0) 0).1
      (Or.inl rfl),
   (C10_memoization_iff ⟨[97], [98], [99]⟩ [120] [] (fun _ => 0) 0).2
      ⟨by decide, by decide, by decide⟩⟩

end Gonymizer
